import Mathlib

/-!
Verification of the structural tree-similarity scorer in
`src/usinggeminikey.py` (`compare_json`, `score_accuracy`, and the batch
evaluation loop).  JSON-like values are embedded as an inductive type;
mappings are association lists with string keys, and Python dictionary
semantics (unique keys, key lookup, value equality) are made explicit.
Numbers are embedded as integers.
-/

/-- A JSON-like value: null, boolean, number, string, ordered sequence,
or mapping (association list of string keys to values). -/
inductive Json where
  | null : Json
  | bool : Bool → Json
  | num : Int → Json
  | str : String → Json
  | arr : List Json → Json
  | obj : List (String × Json) → Json

/-- Dictionary key lookup: `lookupKey k d` models both `k in d` (by
`Option.isSome`) and `d[k]` for a Python dict `d`. -/
def lookupKey (k : String) : List (String × Json) → Option Json
  | [] => none
  | (k', v) :: rest => if k' == k then some v else lookupKey k rest

theorem lookupKey_sizeOf_lt {k : String} {l : List (String × Json)} {w : Json}
    (h : lookupKey k l = some w) : sizeOf w < sizeOf l := by
  induction l with
  | nil => simp [lookupKey] at h
  | cons kv rest ih =>
    obtain ⟨k', v⟩ := kv
    simp only [lookupKey] at h
    split at h
    · cases h
      simp only [List.cons.sizeOf_spec, Prod.mk.sizeOf_spec]
      omega
    · have := ih h
      simp only [List.cons.sizeOf_spec, Prod.mk.sizeOf_spec]
      omega

theorem sizeOf_lt_of_mem_pairs {k : String} {v : Json}
    {l : List (String × Json)} (h : (k, v) ∈ l) : sizeOf v < sizeOf l := by
  have h1 : sizeOf (k, v) < sizeOf l := List.sizeOf_lt_of_mem h
  simp only [Prod.mk.sizeOf_spec] at h1
  omega

theorem sizeOf_lt_of_mem_list {x : Json} {l : List Json} (h : x ∈ l) :
    sizeOf x < sizeOf l :=
  List.sizeOf_lt_of_mem h

mutual

/-- Python `==` on JSON-like values.  Equality is by value: booleans
compare equal to the numbers 1 and 0 (`True == 1` in Python), strings
only to strings, lists elementwise, dicts by key set and per-key values;
all other cross-type pairs are unequal. -/
def pyEq : Json → Json → Bool
  | .null, .null => true
  | .bool a, .bool b => a == b
  | .bool a, .num n => (if a then (1 : Int) else 0) == n
  | .num n, .bool b => n == (if b then (1 : Int) else 0)
  | .num a, .num b => a == b
  | .str a, .str b => a == b
  | .arr a, .arr b => pyEqList a b
  | .obj a, .obj b => a.length == b.length && pyEqObj a b
  | _, _ => false
termination_by g p => sizeOf g + sizeOf p

/-- Python `==` on lists: equal lengths and elementwise equal. -/
def pyEqList : List Json → List Json → Bool
  | [], [] => true
  | x :: xs, y :: ys => pyEq x y && pyEqList xs ys
  | _, _ => false
termination_by a b => sizeOf a + sizeOf b

/-- Every key of the first dict is present in the second with an equal
value (with the length check in `pyEq`, this is Python dict equality). -/
def pyEqObj : List (String × Json) → List (String × Json) → Bool
  | [], _ => true
  | (k, v) :: rest, b =>
    (match h : lookupKey k b with
     | some w => pyEq v w
     | none => false) && pyEqObj rest b
termination_by a b => sizeOf a + sizeOf b
decreasing_by
  · have := lookupKey_sizeOf_lt h
    simp only [List.cons.sizeOf_spec, Prod.mk.sizeOf_spec]
    omega
  · simp only [List.cons.sizeOf_spec, Prod.mk.sizeOf_spec]
    omega

end

/-- No key of the association list occurs twice (so it denotes a Python
dict). -/
def keysNodup : List (String × Json) → Bool
  | [] => true
  | (k, _) :: rest => (lookupKey k rest).isNone && keysNodup rest

mutual

/-- Well-formed JSON-like value: every mapping node has unique keys.
Every value produced by parsing JSON text (Python `json.loads`) is
well-formed. -/
def Json.wf : Json → Bool
  | .obj l => keysNodup l && wfObj l
  | .arr l => wfArr l
  | _ => true
termination_by t => sizeOf t

def wfObj : List (String × Json) → Bool
  | [] => true
  | (_, v) :: rest => v.wf && wfObj rest
termination_by l => sizeOf l
decreasing_by
  · simp only [List.cons.sizeOf_spec, Prod.mk.sizeOf_spec]
    omega
  · simp only [List.cons.sizeOf_spec, Prod.mk.sizeOf_spec]
    omega

def wfArr : List Json → Bool
  | [] => true
  | x :: xs => x.wf && wfArr xs
termination_by l => sizeOf l

end

mutual

/-- `compare_json` from `src/usinggeminikey.py` (lines 88-110):
recursively compare two JSON-like values and count matches and total
elementary comparisons.  Dict vs dict iterates the keys of `gold`,
charging one presence check per key and recursing on values of shared
keys; list vs list compares positionally and charges the length
difference; every other pair is a single comparison scored by Python
equality. -/
def compare_json : Json → Json → Nat × Nat
  | .obj gold, .obj pred => compareObj gold pred
  | .arr gold, .arr pred => compareList gold pred
  | gold, pred => (if pyEq gold pred then 1 else 0, 1)
termination_by g p => sizeOf g + sizeOf p

/-- The dict branch of `compare_json`: the loop
`for k in gold: total += 1; if k in pred: ...` as a recursion over the
entries of `gold`. -/
def compareObj : List (String × Json) → List (String × Json) → Nat × Nat
  | [], _ => (0, 0)
  | (k, v) :: rest, pred =>
    let r := compareObj rest pred
    match h : lookupKey k pred with
    | some w =>
      let s := compare_json v w
      (s.1 + r.1, 1 + s.2 + r.2)
    | none => (r.1, 1 + r.2)
termination_by gold pred => sizeOf gold + sizeOf pred
decreasing_by
  · simp only [List.cons.sizeOf_spec, Prod.mk.sizeOf_spec]
    omega
  · have := lookupKey_sizeOf_lt h
    simp only [List.cons.sizeOf_spec, Prod.mk.sizeOf_spec]
    omega

/-- The list branch of `compare_json`: `for g, p in zip(gold, pred)`
followed by `total += abs(len(gold) - len(pred))`; peeling matched
prefixes leaves exactly the length difference at the end. -/
def compareList : List Json → List Json → Nat × Nat
  | [], ps => (0, ps.length)
  | g :: gs, [] => (0, (g :: gs).length)
  | g :: gs, p :: ps =>
    let s := compare_json g p
    let r := compareList gs ps
    (s.1 + r.1, s.2 + r.2)
termination_by gs ps => sizeOf gs + sizeOf ps

end

/-- Python `round(x, 2)`: round to two decimal places (ties modelled as
round-half-up over exact rationals). -/
def round2 (x : ℚ) : ℚ := (round (x * 100) : ℤ) / 100

/-- The score record returned by `score_accuracy` or built by the batch
loop for a failed candidate producer: Python dict keys become fields,
absent keys become `none`. -/
structure Score where
  error : Option String
  exact_match : Nat
  match_percent : ℚ
  «matches» : Option Nat
  total : Option Nat
deriving DecidableEq, Repr

/-- `score_accuracy` from `src/usinggeminikey.py` (lines 112-121):
short-circuit to an exact match when `gold == pred`, else derive the
rounded percentage from `compare_json`, guarding against a zero total. -/
def score_accuracy (gold pred : Json) : Score :=
  if pyEq gold pred then
    ⟨none, 1, 100, none, none⟩
  else
    let mt := compare_json gold pred
    ⟨none, 0,
     if 0 < mt.2 then round2 ((mt.1 : ℚ) / (mt.2 : ℚ) * 100) else 0,
     some mt.1, some mt.2⟩

/-- One entry of the `results` list built by the batch loop. -/
structure ItemResult where
  sql : String
  score : Score
deriving DecidableEq, Repr

/-- The error record `{"error": str(e), "exact_match": 0,
"match_percent": 0.0}` built when the candidate producer raises. -/
def errorScore (e : String) : Score := ⟨some e, 0, 0, none, none⟩

/-- One iteration of the batch loop (lines 138-145): obtain the gold
tree, then try the candidate producer — a fallible call modelled as
`Except` — scoring on success and recording the error on failure. -/
def runItem (parse : String → Json) (llm : String → Except String Json)
    (sql : String) : ItemResult :=
  let gold_ast := parse sql
  match llm sql with
  | .ok llm_ast => ⟨sql, score_accuracy gold_ast llm_ast⟩
  | .error e => ⟨sql, errorScore e⟩

/-- The batch loop `for sql in test_sqls: ... results.append(...)`. -/
def runBatch (parse : String → Json) (llm : String → Except String Json) :
    List String → List ItemResult
  | [] => []
  | sql :: rest => runItem parse llm sql :: runBatch parse llm rest

/-- Is the value a mapping (`isinstance(x, dict)`)? -/
def Json.isObj : Json → Bool
  | .obj _ => true
  | _ => false

/-- Is the value a sequence (`isinstance(x, list)`)? -/
def Json.isArr : Json → Bool
  | .arr _ => true
  | _ => false

theorem compare_json_obj_obj (g p : List (String × Json)) :
    compare_json (.obj g) (.obj p) = compareObj g p := by
  simp [compare_json]

theorem compare_json_arr_arr (g p : List Json) :
    compare_json (.arr g) (.arr p) = compareList g p := by
  simp [compare_json]

theorem compare_json_other (g p : Json) (h1 : (g.isObj && p.isObj) = false)
    (h2 : (g.isArr && p.isArr) = false) :
    compare_json g p = (if pyEq g p then 1 else 0, 1) := by
  cases g <;> cases p <;> simp_all [Json.isObj, Json.isArr, compare_json]

/-- C1: on a pair of mappings, `compare_json` charges one presence check
per key of `expected` (so `gold.length` in `total`), adds the recursive
`(matches, total)` exactly for the keys also present in `actual`, and the
result is invariant under changing entries of `actual` at keys that do
not occur in `expected`. -/
theorem compare_json_mapping_case (gold pred : List (String × Json)) :
    (compare_json (.obj gold) (.obj pred) =
      ((gold.map fun kv =>
          match lookupKey kv.1 pred with
          | some w => (compare_json kv.2 w).1
          | none => 0).sum,
       gold.length +
       (gold.map fun kv =>
          match lookupKey kv.1 pred with
          | some w => (compare_json kv.2 w).2
          | none => 0).sum)) ∧
    (∀ pred' : List (String × Json),
      (∀ kv ∈ gold, lookupKey kv.1 pred' = lookupKey kv.1 pred) →
      compare_json (.obj gold) (.obj pred') =
        compare_json (.obj gold) (.obj pred)) := by
  have key : ∀ (gold pred : List (String × Json)),
      compareObj gold pred =
      ((gold.map fun kv =>
          match lookupKey kv.1 pred with
          | some w => (compare_json kv.2 w).1
          | none => 0).sum,
       gold.length +
       (gold.map fun kv =>
          match lookupKey kv.1 pred with
          | some w => (compare_json kv.2 w).2
          | none => 0).sum) := by
    intro gold pred
    induction gold with
    | nil => simp [compareObj]
    | cons kv rest ih =>
      obtain ⟨k, v⟩ := kv
      rw [compareObj]
      rcases h : lookupKey k pred with _ | w <;>
        simp [h, ih, Prod.ext_iff] <;> omega
  constructor
  · rw [compare_json_obj_obj]
    exact key gold pred
  · intro pred' hsame
    rw [compare_json_obj_obj, compare_json_obj_obj, key, key]
    have m1 : (gold.map fun kv =>
        match lookupKey kv.1 pred' with
        | some w => (compare_json kv.2 w).1
        | none => 0) =
        (gold.map fun kv =>
        match lookupKey kv.1 pred with
        | some w => (compare_json kv.2 w).1
        | none => 0) := by
      apply List.map_congr_left
      intro kv hkv
      rw [hsame kv hkv]
    have m2 : (gold.map fun kv =>
        match lookupKey kv.1 pred' with
        | some w => (compare_json kv.2 w).2
        | none => 0) =
        (gold.map fun kv =>
        match lookupKey kv.1 pred with
        | some w => (compare_json kv.2 w).2
        | none => 0) := by
      apply List.map_congr_left
      intro kv hkv
      rw [hsame kv hkv]
    rw [m1, m2]

/-- C1 witness: entries of `actual` at keys outside `expected` (here the
extra key `z`) do not change the result. -/
theorem compare_json_mapping_case_witness :
    compare_json (.obj [("a", .num 1)])
        (.obj [("a", .num 1), ("z", .num 5)]) =
      compare_json (.obj [("a", .num 1)]) (.obj [("a", .num 1)]) :=
  (compare_json_mapping_case [("a", .num 1)] [("a", .num 1)]).2
    [("a", .num 1), ("z", .num 5)]
    (by intro kv hkv; simp at hkv; subst hkv; simp [lookupKey])

/-- C3: on a pair of sequences, `compare_json` sums the recursive results
over the positions of the zip (of length the minimum of the two lengths)
and adds the absolute length difference to `total`; in particular
`compare([1,2,3], [1,2])` yields `(2, 3)` and a match percentage of
66.67. -/
theorem compare_json_sequence_case :
    (∀ gs ps : List Json,
      compare_json (.arr gs) (.arr ps) =
        (((gs.zip ps).map fun gp => (compare_json gp.1 gp.2).1).sum,
         ((gs.zip ps).map fun gp => (compare_json gp.1 gp.2).2).sum +
           Nat.dist gs.length ps.length)) ∧
    compare_json (.arr [.num 1, .num 2, .num 3]) (.arr [.num 1, .num 2]) =
      (2, 3) ∧
    (score_accuracy (.arr [.num 1, .num 2, .num 3])
        (.arr [.num 1, .num 2])).match_percent = 6667 / 100 := by
  refine ⟨?_, ?_, ?_⟩
  · intro gs
    induction gs with
    | nil =>
      intro ps
      rw [compare_json_arr_arr, compareList]
      simp [Nat.dist]
    | cons g gs ih =>
      intro ps
      rcases ps with _ | ⟨p, ps⟩
      · rw [compare_json_arr_arr, compareList]
        simp [Nat.dist]
      · rw [compare_json_arr_arr, compareList]
        simp only [compare_json_arr_arr] at ih
        simp [ih ps, Prod.ext_iff, Nat.dist]
        omega
  · simp [compare_json, compareList, pyEq]
  · simp [score_accuracy, compare_json, compareList, pyEq, pyEqList, round2]
    norm_num [round_eq]

/-- C4: a mapping compared against a non-mapping falls through to the
scalar branch and scores `(0, 1)`, whatever the keys of the mapping. -/
theorem compare_json_mapping_vs_other (gold : List (String × Json))
    (p : Json) (h : p.isObj = false) :
    compare_json (.obj gold) p = (0, 1) := by
  cases p <;> simp_all [Json.isObj, compare_json, pyEq]

/-- C4 witness: `compare({a:1}, "not a mapping")` yields `(0, 1)`. -/
theorem compare_json_mapping_vs_other_witness :
    compare_json (.obj [("a", .num 1)]) (.str "not a mapping") = (0, 1) :=
  compare_json_mapping_vs_other [("a", .num 1)] (.str "not a mapping") rfl

/-- C5 counterexample: `compare(True, 1)` is in the claim's scope (the
expected value is neither a mapping nor part of a sequence pair), Python
scores it as a match because `True == 1`, yet `True` and `1` are not
equal under type-sensitive equality. -/
theorem compare_json_scalar_counterexample :
    compare_json (.bool true) (.num 1) = (1, 1) ∧
    Json.bool true ≠ Json.num 1 ∧
    (Json.bool true).isObj = false ∧ (Json.bool true).isArr = false := by
  refine ⟨by simp [compare_json, pyEq], by nofun, rfl, rfl⟩

/-- C5 amended: in the fall-through branch (expected not a mapping and
the pair not two sequences), `total` is 1 and `matches` is 1 exactly when
the values are equal under Python value equality `pyEq`, which equates a
boolean with its numeric value but never a number with its string
representation. -/
theorem compare_json_scalar_case :
    (∀ g p : Json, g.isObj = false → (g.isArr && p.isArr) = false →
      compare_json g p = (if pyEq g p then 1 else 0, 1)) ∧
    (∀ (n : Int) (s : String), pyEq (.num n) (.str s) = false) := by
  constructor
  · intro g p h1 h2
    apply compare_json_other <;> simp_all [Json.isObj]
  · intro n s
    simp [pyEq]

/-- C5 witness: `compare(1, "1")` scores `(0, 1)` — a number does not
match its string representation. -/
theorem compare_json_scalar_case_witness :
    compare_json (.num 1) (.str "1") = (0, 1) := by
  have h := compare_json_scalar_case.1 (.num 1) (.str "1") rfl rfl
  simpa [pyEq] using h

/-- C2 counterexample: `score({a:1, b:2}, {a:1})` does not return
`total = 2` and does not return `match_percent = 50.0`: the key `a`
charges both a presence check and a recursive value comparison, so the
total is 3. -/
theorem score_mapping_asymmetry_counterexample :
    (score_accuracy (.obj [("a", .num 1), ("b", .num 2)])
        (.obj [("a", .num 1)])).total ≠ some 2 ∧
    (score_accuracy (.obj [("a", .num 1), ("b", .num 2)])
        (.obj [("a", .num 1)])).match_percent ≠ 50 := by
  constructor
  · simp [score_accuracy, compare_json, compareObj, pyEq, pyEqObj,
      lookupKey, round2]
  · simp [score_accuracy, compare_json, compareObj, pyEq, pyEqObj,
      lookupKey, round2]
    norm_num [round_eq]

/-- C2 amended: `score({a:1, b:2}, {a:1})` returns `matches = 1`,
`total = 3` (presence checks for `a` and `b` plus the recursive
comparison of the shared key `a`), hence `match_percent = 33.33`. -/
theorem score_mapping_asymmetry :
    score_accuracy (.obj [("a", .num 1), ("b", .num 2)])
        (.obj [("a", .num 1)]) =
      ⟨none, 0, 3333 / 100, some 1, some 3⟩ := by
  simp [score_accuracy, compare_json, compareObj, pyEq, pyEqObj,
    lookupKey, round2]
  norm_num [round_eq]

/-- C10: an empty expected mapping yields `(0, 0)` against every actual
mapping, and against every non-empty actual mapping the score takes the
`total == 0` branch: `exact_match` 0 with `match_percent` 0.0. -/
theorem score_empty_expected_mapping :
    (∀ pred : List (String × Json),
      compare_json (.obj []) (.obj pred) = (0, 0)) ∧
    (∀ pred : List (String × Json), pred ≠ [] →
      score_accuracy (.obj []) (.obj pred) =
        ⟨none, 0, 0, some 0, some 0⟩) := by
  constructor
  · intro pred
    simp [compare_json, compareObj]
  · intro pred hne
    have hlen : pred.length ≠ 0 := by simpa using fun h => hne (List.length_eq_zero.mp h)
    simp [score_accuracy, compare_json, compareObj, pyEq, hlen.symm]

/-- C10 witness: `score({}, {a:1})` returns `exact_match` 0 and
`match_percent` 0.0 with zero matches and zero total. -/
theorem score_empty_expected_mapping_witness :
    score_accuracy (.obj []) (.obj [("a", .num 1)]) =
      ⟨none, 0, 0, some 0, some 0⟩ :=
  score_empty_expected_mapping.2 [("a", .num 1)] (List.cons_ne_nil _ _)

/-- C9: when the candidate producer fails on an item, that item's record
carries the error description with `exact_match` 0 and `match_percent`
0.0 — built without invoking `score_accuracy` — and the batch continues
unchanged on the remaining items. -/
theorem batch_error_isolation (parse : String → Json)
    (llm : String → Except String Json) (sql : String) (e : String)
    (rest : List String) (h : llm sql = .error e) :
    runItem parse llm sql = ⟨sql, ⟨some e, 0, 0, none, none⟩⟩ ∧
    runBatch parse llm (sql :: rest) =
      ⟨sql, ⟨some e, 0, 0, none, none⟩⟩ :: runBatch parse llm rest := by
  constructor <;> simp [runBatch, runItem, h, errorScore]

/-- C9 witness: a producer that always fails yields the error record for
the first item and the batch still processes the second item. -/
theorem batch_error_isolation_witness :
    runBatch (fun _ => .null) (fun _ => .error "boom") ["q1", "q2"] =
      [⟨"q1", ⟨some "boom", 0, 0, none, none⟩⟩,
       ⟨"q2", ⟨some "boom", 0, 0, none, none⟩⟩] := by
  have h1 := batch_error_isolation (fun _ => .null)
    (fun _ => .error "boom") "q1" "boom" ["q2"] rfl
  rw [h1.2]
  simp [runBatch, runItem, errorScore]

theorem mem_lookupKey_isSome {k : String} {v : Json}
    {l : List (String × Json)} (h : (k, v) ∈ l) :
    (lookupKey k l).isSome := by
  induction l with
  | nil => simp at h
  | cons kv rest ih =>
    obtain ⟨k', v'⟩ := kv
    rcases List.mem_cons.mp h with h1 | h1
    · cases h1
      simp [lookupKey]
    · rw [lookupKey]
      split
      · simp
      · exact ih h1

theorem keysNodup_lookup {l : List (String × Json)} (hnd : keysNodup l = true)
    {k : String} {v : Json} (h : (k, v) ∈ l) : lookupKey k l = some v := by
  induction l with
  | nil => simp at h
  | cons kv rest ih =>
    obtain ⟨k', v'⟩ := kv
    rw [keysNodup, Bool.and_eq_true] at hnd
    rcases List.mem_cons.mp h with h1 | h1
    · cases h1
      simp [lookupKey]
    · rw [lookupKey]
      split
      · rename_i heq
        have : k' = k := by simpa using heq
        subst this
        have := mem_lookupKey_isSome h1
        rw [Option.isNone_iff_eq_none] at hnd
        rw [hnd.1] at this
        simp at this
      · exact ih hnd.2 h1

theorem wfObj_mem {l : List (String × Json)} (hwf : wfObj l = true)
    {k : String} {v : Json} (h : (k, v) ∈ l) : v.wf = true := by
  induction l with
  | nil => simp at h
  | cons kv rest ih =>
    obtain ⟨k', v'⟩ := kv
    rw [wfObj, Bool.and_eq_true] at hwf
    rcases List.mem_cons.mp h with h1 | h1
    · cases h1
      exact hwf.1
    · exact ih hwf.2 h1

theorem wfArr_mem {l : List Json} (hwf : wfArr l = true) {x : Json}
    (h : x ∈ l) : x.wf = true := by
  induction l with
  | nil => simp at h
  | cons y rest ih =>
    rw [wfArr, Bool.and_eq_true] at hwf
    rcases List.mem_cons.mp h with h1 | h1
    · subst h1
      exact hwf.1
    · exact ih hwf.2 h1

theorem pyEqList_refl_of {l : List Json}
    (h : ∀ x ∈ l, pyEq x x = true) : pyEqList l l = true := by
  induction l with
  | nil => simp [pyEqList]
  | cons x rest ih =>
    rw [pyEqList, Bool.and_eq_true]
    refine ⟨h x (by simp), ?_⟩
    exact ih fun y hy => h y (by simp [hy])

theorem pyEqObj_of {rest l : List (String × Json)}
    (h : ∀ kv ∈ rest, lookupKey kv.1 l = some kv.2 ∧ pyEq kv.2 kv.2 = true) :
    pyEqObj rest l = true := by
  induction rest with
  | nil => simp [pyEqObj]
  | cons kv rest' ih =>
    obtain ⟨k, v⟩ := kv
    rw [pyEqObj, Bool.and_eq_true]
    obtain ⟨h1, h2⟩ := h (k, v) (by simp)
    constructor
    · split
      · rename_i w heq
        rw [h1] at heq
        cases heq
        exact h2
      · rename_i heq
        rw [h1] at heq
        cases heq
    · exact ih fun kv' hkv' => h kv' (by simp [hkv'])

theorem pyEq_refl_aux :
    ∀ (n : Nat) (t : Json), sizeOf t ≤ n → t.wf = true → pyEq t t = true := by
  intro n
  induction n using Nat.strong_induction_on with
  | _ n IH =>
    intro t hsize hwf
    match t with
    | .null => simp [pyEq]
    | .bool b => simp [pyEq]
    | .num m => simp [pyEq]
    | .str s => simp [pyEq]
    | .arr l =>
      rw [Json.wf] at hwf
      rw [pyEq]
      apply pyEqList_refl_of
      intro x hx
      have hs : sizeOf x < sizeOf (Json.arr l) := by
        have := sizeOf_lt_of_mem_list hx
        simp only [Json.arr.sizeOf_spec]
        omega
      exact IH (sizeOf x) (lt_of_lt_of_le hs hsize) x le_rfl (wfArr_mem hwf hx)
    | .obj l =>
      rw [Json.wf, Bool.and_eq_true] at hwf
      rw [pyEq, Bool.and_eq_true]
      refine ⟨by simp, ?_⟩
      apply pyEqObj_of
      intro kv hkv
      obtain ⟨k, v⟩ := kv
      refine ⟨keysNodup_lookup hwf.1 hkv, ?_⟩
      have hs : sizeOf v < sizeOf (Json.obj l) := by
        have := sizeOf_lt_of_mem_pairs hkv
        simp only [Json.obj.sizeOf_spec]
        omega
      exact IH (sizeOf v) (lt_of_lt_of_le hs hsize) v le_rfl
        (wfObj_mem hwf.2 hkv)

/-- Python equality is reflexive on well-formed JSON-like values. -/
theorem pyEq_refl (t : Json) (hwf : t.wf = true) : pyEq t t = true :=
  pyEq_refl_aux (sizeOf t) t le_rfl hwf

/-- C6: whenever the two trees are (structurally) deeply equal and
well-formed, the `gold == pred` short-circuit of `score_accuracy` fires
(`pyEq` is true, so the recursive comparator is bypassed) and the result
is `exact_match` with `match_percent` 100.0. -/
theorem score_reflexivity (g p : Json) (h1 : g.wf = true) (h2 : g = p) :
    pyEq g p = true ∧ score_accuracy g p = ⟨none, 1, 100, none, none⟩ := by
  subst h2
  have h := pyEq_refl g h1
  exact ⟨h, by simp [score_accuracy, h]⟩

/-- C6 witness: a nested tree scored against itself is an exact match at
100%. -/
theorem score_reflexivity_witness :
    score_accuracy
        (.obj [("a", .num 1), ("b", .arr [.null, .bool true])])
        (.obj [("a", .num 1), ("b", .arr [.null, .bool true])]) =
      ⟨none, 1, 100, none, none⟩ :=
  (score_reflexivity
    (.obj [("a", .num 1), ("b", .arr [.null, .bool true])])
    (.obj [("a", .num 1), ("b", .arr [.null, .bool true])])
    (by simp [Json.wf, wfObj, wfArr, keysNodup, lookupKey]) rfl).2

theorem compareObj_le (gold pred : List (String × Json))
    (h : ∀ k v, (k, v) ∈ gold → ∀ w, lookupKey k pred = some w →
      (compare_json v w).1 ≤ (compare_json v w).2) :
    (compareObj gold pred).1 ≤ (compareObj gold pred).2 := by
  induction gold with
  | nil => simp [compareObj]
  | cons kv rest ih =>
    obtain ⟨k, v⟩ := kv
    have hr := ih fun k' v' hkv' => h k' v' (by simp [hkv'])
    rw [compareObj]
    rcases hl : lookupKey k pred with _ | w
    · simp only [hl]
      omega
    · have hs := h k v (by simp) w hl
      simp only [hl]
      omega

theorem compareList_le (gs ps : List Json)
    (h : ∀ g ∈ gs, ∀ p ∈ ps,
      (compare_json g p).1 ≤ (compare_json g p).2) :
    (compareList gs ps).1 ≤ (compareList gs ps).2 := by
  induction gs generalizing ps with
  | nil => simp [compareList]
  | cons g gs ih =>
    rcases ps with _ | ⟨p, ps⟩
    · simp [compareList]
    · have hs := h g (by simp) p (by simp)
      have hr := ih ps fun g' hg' p' hp' => h g' (by simp [hg']) p' (by simp [hp'])
      rw [compareList]
      omega

theorem compare_le_aux :
    ∀ (n : Nat) (g p : Json), sizeOf g + sizeOf p ≤ n →
      (compare_json g p).1 ≤ (compare_json g p).2 := by
  intro n
  induction n using Nat.strong_induction_on with
  | _ n IH =>
    intro g p hsize
    cases g <;> cases p <;>
      try (simp [compare_json] <;> (split <;> norm_num))
    · rename_i ga pa
      rw [compare_json_arr_arr]
      apply compareList_le
      intro x hx y hy
      have h1 : sizeOf x < sizeOf (Json.arr ga) := by
        have := sizeOf_lt_of_mem_list hx
        simp only [Json.arr.sizeOf_spec]
        omega
      have h2 : sizeOf y < sizeOf (Json.arr pa) := by
        have := sizeOf_lt_of_mem_list hy
        simp only [Json.arr.sizeOf_spec]
        omega
      exact IH (sizeOf x + sizeOf y) (by omega) x y le_rfl
    · rename_i go po
      rw [compare_json_obj_obj]
      apply compareObj_le
      intro k v hkv w hw
      have h1 : sizeOf v < sizeOf (Json.obj go) := by
        have := sizeOf_lt_of_mem_pairs hkv
        simp only [Json.obj.sizeOf_spec]
        omega
      have h2 : sizeOf w < sizeOf (Json.obj po) := by
        have := lookupKey_sizeOf_lt hw
        simp only [Json.obj.sizeOf_spec]
        omega
      exact IH (sizeOf v + sizeOf w) (by omega) v w le_rfl

/-- `compare_json` never counts more matches than comparisons. -/
theorem compare_le (g p : Json) :
    (compare_json g p).1 ≤ (compare_json g p).2 :=
  compare_le_aux (sizeOf g + sizeOf p) g p le_rfl

theorem round2_bounds (x : ℚ) (h0 : 0 ≤ x) (h1 : x ≤ 100) :
    0 ≤ round2 x ∧ round2 x ≤ 100 := by
  have e : round (x * 100) = ⌊x * 100 + 1 / 2⌋ := round_eq _
  have hl : (0 : ℤ) ≤ ⌊x * 100 + 1 / 2⌋ := by
    rw [Int.le_floor]
    push_cast
    linarith
  have hu : ⌊x * 100 + 1 / 2⌋ ≤ 10000 := by
    have hm : ⌊x * 100 + 1 / 2⌋ ≤ ⌊(10000 : ℚ) + 1 / 2⌋ :=
      Int.floor_le_floor (by linarith)
    have h2 : ⌊(10000 : ℚ) + 1 / 2⌋ = 10000 := by
      apply Int.floor_eq_iff.mpr
      constructor <;> norm_num
    omega
  unfold round2
  rw [e]
  constructor
  · apply div_nonneg _ (by norm_num)
    exact_mod_cast hl
  · rw [div_le_iff₀ (by norm_num : (0 : ℚ) < 100)]
    have : ((⌊x * 100 + 1 / 2⌋ : ℤ) : ℚ) ≤ 10000 := by exact_mod_cast hu
    linarith

/-- C7: matches never exceed the total comparison count, and the derived
match percentage always lies between 0.0 and 100.0. -/
theorem compare_and_score_range (g p : Json) :
    (compare_json g p).1 ≤ (compare_json g p).2 ∧
    0 ≤ (score_accuracy g p).match_percent ∧
    (score_accuracy g p).match_percent ≤ 100 := by
  refine ⟨compare_le g p, ?_⟩
  unfold score_accuracy
  split
  · simp
  · have hmt := compare_le g p
    simp only
    split
    · rename_i hpos
      have ht : (0 : ℚ) < ((compare_json g p).2 : ℚ) := by exact_mod_cast hpos
      have hx0 : 0 ≤ ((compare_json g p).1 : ℚ) /
          ((compare_json g p).2 : ℚ) * 100 := by positivity
      have hx1 : ((compare_json g p).1 : ℚ) /
          ((compare_json g p).2 : ℚ) * 100 ≤ 100 := by
        have hq : ((compare_json g p).1 : ℚ) /
            ((compare_json g p).2 : ℚ) ≤ 1 := by
          rw [div_le_one ht]
          exact_mod_cast hmt
        linarith
      exact round2_bounds _ hx0 hx1
    · norm_num

/-- C8: the comparator and scorer are total functions of their inputs
(they always produce a result — in this embedding both are accepted as
terminating definitions), and both recursive call sites of
`compare_json` strictly decrease the combined size of the two trees: one
key on each side in the mapping case, one position on each side in the
sequence case. -/
theorem compare_and_score_total :
    (∀ g p : Json, ∃ (mt : Nat × Nat) (s : Score),
      compare_json g p = mt ∧ score_accuracy g p = s) ∧
    (∀ (k : String) (v w : Json) (gold pred : List (String × Json)),
      (k, v) ∈ gold → lookupKey k pred = some w →
      sizeOf v + sizeOf w < sizeOf (Json.obj gold) + sizeOf (Json.obj pred)) ∧
    (∀ (x y : Json) (gs ps : List Json), x ∈ gs → y ∈ ps →
      sizeOf x + sizeOf y < sizeOf (Json.arr gs) + sizeOf (Json.arr ps)) := by
  refine ⟨fun g p => ⟨compare_json g p, score_accuracy g p, rfl, rfl⟩, ?_, ?_⟩
  · intro k v w gold pred hkv hw
    have h1 := sizeOf_lt_of_mem_pairs hkv
    have h2 := lookupKey_sizeOf_lt hw
    simp only [Json.obj.sizeOf_spec]
    omega
  · intro x y gs ps hx hy
    have h1 := sizeOf_lt_of_mem_list hx
    have h2 := sizeOf_lt_of_mem_list hy
    simp only [Json.arr.sizeOf_spec]
    omega

/-- C8 witness: the size measure strictly decreases at a concrete
mapping-case recursive call. -/
theorem compare_and_score_total_witness :
    sizeOf (Json.num 1) + sizeOf (Json.num 2) <
      sizeOf (Json.obj [("a", Json.num 1)]) +
        sizeOf (Json.obj [("a", Json.num 2)]) :=
  compare_and_score_total.2.1 "a" (Json.num 1) (Json.num 2)
    [("a", Json.num 1)] [("a", Json.num 2)] (by simp) (by simp [lookupKey])
